import Mathlib

/-!
Shallow embedding of the `ouharri/audit` Go library (core audit context,
event conversion, decorators, Echo adapter glue), with theorems checking
the natural-language specification against the code.

Modelling conventions:
* Go `any` / `interface{}` values are modelled by `GoValue`, a JSON-shaped
  inductive with an extra constructor `unser` for values whose
  `json.Marshal` fails (channels, functions, NaN, ...).  A nil interface is
  `Option.none` where the code distinguishes nil from a held value.
* `time.Time` is modelled as an `Int` instant.
* Go maps `map[string]interface{}` are association lists
  `List (String × GoValue)`; `none` models a nil map, `some []` an empty
  non-nil map (the distinction matters for lazy initialization, not for
  `omitempty`, which drops both).
* Mutators are pure state transformers `AuditableContext → AuditableContext`;
  the per-instance mutex makes each Go mutator atomic, which the
  operation-level model reflects.  Claim C9 additionally uses a small-step
  interleaving model in which the lock is explicit.
-/

/-- A JSON-shaped model of Go `any` values.  `unser` stands for any value
on which `json.Marshal` errors (a channel, a function, a NaN float, ...);
marshalling fails exactly when an `unser` occurs somewhere inside the
value. -/
inductive GoValue where
  | jnull : GoValue
  | jbool : Bool → GoValue
  | jnum : Int → GoValue
  | jstr : String → GoValue
  | jarr : List GoValue → GoValue
  | jobj : List (String × GoValue) → GoValue
  | unser : GoValue

/-- Go map assignment `m[k] = v` on the association-list model: replace the
binding in place if the key is present, append it otherwise. -/
def mapSet : List (String × GoValue) → String → GoValue → List (String × GoValue)
  | [], k, v => [(k, v)]
  | (k', v') :: rest, k, v =>
    if k' = k then (k, v) :: rest else (k', v') :: mapSet rest k v

/-- Go `for k, v := range src { dst[k] = v }`: fold `mapSet` over the
entries of `src`. -/
def mapMerge (dst src : List (String × GoValue)) : List (String × GoValue) :=
  src.foldl (fun acc kv => mapSet acc kv.1 kv.2) dst

mutual

/-- `serializableB v` is true exactly when `json.Marshal` succeeds on `v`,
i.e. when no `unser` occurs inside `v`. -/
def serializableB : GoValue → Bool
  | .jnull => true
  | .jbool _ => true
  | .jnum _ => true
  | .jstr _ => true
  | .jarr xs => serializableList xs
  | .jobj fs => serializableFields fs
  | .unser => false

/-- Serializability of every element of a JSON array. -/
def serializableList : List GoValue → Bool
  | [] => true
  | x :: xs => serializableB x && serializableList xs

/-- Serializability of every value of a JSON object. -/
def serializableFields : List (String × GoValue) → Bool
  | [] => true
  | f :: fs => serializableB f.2 && serializableFields fs

end

/-- Model of `json.Marshal`: the marshalled document is the value itself
(already JSON-shaped) when serialization succeeds, `none` when it errors. -/
def jsonMarshal (v : GoValue) : Option GoValue :=
  if serializableB v then some v else none

/-- Model of `json.Unmarshal(bytes, &m)` for `m : map[string]interface{}`:
an object document yields its fields, the document `null` succeeds leaving
the map nil, and every other document is a type error. -/
def unmarshalMap : GoValue → Option (Option (List (String × GoValue)))
  | .jobj fs => some (some fs)
  | .jnull => some none
  | _ => none

/-- Go `type ActionType string` (core/domain.go). -/
abbrev ActionType := String

/-- Go `type EntityType string` (core/domain.go). -/
abbrev EntityType := String

/-- Embedding of `core.AuditableContext` (core/context.go).  Pointer and
interface fields are `Option`s (`none` = Go nil); the mutex is not a field
of the functional model (each mutator is one atomic transformer). -/
structure AuditableContext where
  TraceID : Option GoValue := none
  UserID : Option GoValue := none
  Action : Option ActionType := none
  Resource : Option EntityType := none
  ResourceID : Option GoValue := none
  OldData : Option GoValue := none
  NewData : Option GoValue := none
  Metadata : Option (List (String × GoValue)) := none
  IPAddress : String := ""
  UserAgent : String := ""
  RequestURI : String := ""
  Method : String := ""
  ResponseCode : Int := 0
  StartTime : Int := 0
  EndTime : Int := 0

/-- Embedding of `core.AuditEvent` (core/domain.go).  `OldData`/`NewData`
are the marshalled documents (`json.RawMessage`), `none` = nil slice. -/
structure AuditEvent where
  TraceID : Option GoValue
  UserID : Option GoValue
  Action : Option ActionType
  Resource : Option EntityType
  ResourceID : Option GoValue
  Metadata : Option (List (String × GoValue))
  IPAddress : String
  UserAgent : String
  RequestURI : String
  Method : String
  ResponseCode : Int
  Success : Bool
  StartTime : Int
  EndTime : Int
  OldData : Option GoValue := none
  NewData : Option GoValue := none

/-- `(*AuditableContext).SetUserID` (core/context.go). -/
def SetUserID (ac : AuditableContext) (userID : Option GoValue) : AuditableContext :=
  { ac with UserID := userID }

/-- `(*AuditableContext).SetResourceID` (core/context.go). -/
def SetResourceID (ac : AuditableContext) (resourceID : Option GoValue) : AuditableContext :=
  { ac with ResourceID := resourceID }

/-- `(*AuditableContext).SetOldData` (core/context.go). -/
def SetOldData (ac : AuditableContext) (data : Option GoValue) : AuditableContext :=
  { ac with OldData := data }

/-- `(*AuditableContext).SetNewData` (core/context.go). -/
def SetNewData (ac : AuditableContext) (data : Option GoValue) : AuditableContext :=
  { ac with NewData := data }

/-- `(*AuditableContext).SetMetadata` (core/context.go): lazily initialize
the map, then assign one key. -/
def SetMetadata (ac : AuditableContext) (key : String) (value : GoValue) : AuditableContext :=
  let base := ac.Metadata.getD []
  { ac with Metadata := some (mapSet base key value) }

/-- `(*AuditableContext).SetBulkMetadata` (core/context.go): lazily
initialize the map, then range-assign every entry of the argument (a nil
argument map merges nothing but still leaves the field initialized). -/
def SetBulkMetadata (ac : AuditableContext) (metadata : Option (List (String × GoValue))) : AuditableContext :=
  let base := ac.Metadata.getD []
  { ac with Metadata := some (mapMerge base (metadata.getD [])) }

/-- `(*AuditableContext).ToEvent` (core/context.go): copy every field,
derive `Success` from the response code, and attach the marshalled
old/new snapshots only when the source is non-nil and marshalling
succeeds. -/
def ToEvent (ac : AuditableContext) : AuditEvent :=
  let event : AuditEvent :=
    { TraceID := ac.TraceID
      UserID := ac.UserID
      Action := ac.Action
      Resource := ac.Resource
      ResourceID := ac.ResourceID
      Metadata := ac.Metadata
      IPAddress := ac.IPAddress
      UserAgent := ac.UserAgent
      RequestURI := ac.RequestURI
      Method := ac.Method
      ResponseCode := ac.ResponseCode
      StartTime := ac.StartTime
      EndTime := ac.EndTime
      Success := decide (200 ≤ ac.ResponseCode) && decide (ac.ResponseCode < 400) }
  let event :=
    match ac.OldData with
    | some d =>
      match jsonMarshal d with
      | some data => { event with OldData := some data }
      | none => event
    | none => event
  let event :=
    match ac.NewData with
    | some d =>
      match jsonMarshal d with
      | some data => { event with NewData := some data }
      | none => event
    | none => event
  event

/-- Keys present in the JSON serialization of an `AuditEvent`, following
the struct tags of core/domain.go and Go `encoding/json` `omitempty`
semantics: a field is dropped when its value is empty — nil interface,
nil pointer, nil-or-empty map, empty string, integer 0, boolean false,
nil-or-empty byte slice.  A successfully marshalled `json.RawMessage` is
never empty, so `some` raw data is always emitted. -/
def serializedKeys (e : AuditEvent) : List String :=
  ["traceId"]
  ++ (if e.UserID.isSome then ["userId"] else [])
  ++ (if e.Action.isSome then ["action"] else [])
  ++ (if e.Resource.isSome then ["resource"] else [])
  ++ (if e.ResourceID.isSome then ["resourceId"] else [])
  ++ (match e.Metadata with
      | some m => if m.isEmpty then [] else ["metadata"]
      | none => [])
  ++ (if e.IPAddress = "" then [] else ["ipAddress"])
  ++ (if e.UserAgent = "" then [] else ["userAgent"])
  ++ (if e.RequestURI = "" then [] else ["requestUri"])
  ++ (if e.Method = "" then [] else ["method"])
  ++ (if e.ResponseCode = 0 then [] else ["responseCode"])
  ++ (if e.Success then ["success"] else [])
  ++ ["startTime", "endTime"]
  ++ (if e.OldData.isSome then ["oldData"] else [])
  ++ (if e.NewData.isSome then ["newData"] else [])

/-- The default (zero-value) `AuditableContext`, as produced by Go struct
initialization with no fields set. -/
def emptyCtx : AuditableContext := {}

/-- Go `type ContextOption func(*AuditableContext)` (core options file),
modelled as a state transformer. -/
abbrev ContextOption := AuditableContext → AuditableContext

/-- `core.WithUserID` option. -/
def WithUserID (userID : Option GoValue) : ContextOption :=
  fun ac => SetUserID ac userID

/-- `core.WithResourceID` option. -/
def WithResourceID (resourceID : Option GoValue) : ContextOption :=
  fun ac => SetResourceID ac resourceID

/-- `core.WithOldData` option. -/
def WithOldData (data : Option GoValue) : ContextOption :=
  fun ac => SetOldData ac data

/-- `core.WithNewData` option. -/
def WithNewData (data : Option GoValue) : ContextOption :=
  fun ac => SetNewData ac data

/-- `core.WithMetadata` option. -/
def WithMetadata (key : String) (value : GoValue) : ContextOption :=
  fun ac => SetMetadata ac key value

/-- `core.WithBulkMetadata` option. -/
def WithBulkMetadata (metadata : Option (List (String × GoValue))) : ContextOption :=
  fun ac => SetBulkMetadata ac metadata

/-- `core.SetContext` (core utils file): apply the options to the
accumulator carried by the request context, a no-op when none is
attached.  A `context.Context` is modelled by the `Option AuditableContext`
that `GetAuditContext` would extract from it. -/
def SetContext (ctx : Option AuditableContext) (opts : List ContextOption) : Option AuditableContext :=
  match ctx with
  | some ac => some (opts.foldl (fun a o => o a) ac)
  | none => none

/-- `core.AuditableCreate` decorator. -/
def AuditableCreate (ctx : Option AuditableContext) (resourceID newData : Option GoValue) : Option AuditableContext :=
  SetContext ctx [WithResourceID resourceID, WithNewData newData]

/-- `core.AuditableUpdate` decorator. -/
def AuditableUpdate (ctx : Option AuditableContext) (resourceID oldData newData : Option GoValue) : Option AuditableContext :=
  SetContext ctx [WithResourceID resourceID, WithOldData oldData, WithNewData newData]

/-- `core.AuditableDelete` decorator. -/
def AuditableDelete (ctx : Option AuditableContext) (resourceID oldData : Option GoValue) : Option AuditableContext :=
  SetContext ctx [WithResourceID resourceID, WithOldData oldData]

/-- `core.AuditableGet` decorator. -/
def AuditableGet (ctx : Option AuditableContext) (resourceID : Option GoValue) : Option AuditableContext :=
  SetContext ctx [WithResourceID resourceID]

/-- `core.AuditableList` decorator: merge the metadata map only when it is
non-nil. -/
def AuditableList (ctx : Option AuditableContext) (metadata : Option (List (String × GoValue))) : Option AuditableContext :=
  match metadata with
  | some _ => SetContext ctx [WithBulkMetadata metadata]
  | none => ctx

/-- `core.AuditablePage` decorator: marshal the page value, unmarshal the
bytes into a string-keyed map, and merge; a failure of either step
returns with no change. -/
def AuditablePage (ctx : Option AuditableContext) (pageData : GoValue) : Option AuditableContext :=
  match jsonMarshal pageData with
  | none => ctx
  | some bytes =>
    match unmarshalMap bytes with
    | none => ctx
    | some metadata => SetContext ctx [WithBulkMetadata metadata]

/-- `core.AuditableAction` decorator: set the resource id and merge the
metadata map only when it is non-nil. -/
def AuditableAction (ctx : Option AuditableContext) (resourceID : Option GoValue) (metadata : Option (List (String × GoValue))) : Option AuditableContext :=
  let opts := [WithResourceID resourceID]
  let opts :=
    match metadata with
    | some _ => opts ++ [WithBulkMetadata metadata]
    | none => opts
  SetContext ctx opts

/-- End-of-request half of `EchoMw.Root` (echo-adapter/types.go): stamp
`EndTime`, stamp `ResponseCode` from the materialized response (when the
response object is non-nil), then emit `ToEvent` to the auditor exactly
when both `Resource` and `Action` are set.  The returned option is the
event handed to `cfg.Auditor.Audit`, `none` when nothing is delivered. -/
def rootFinish (ac : AuditableContext) (respStatus : Option Int) (endTime : Int) :
    AuditableContext × Option AuditEvent :=
  let ac := { ac with EndTime := endTime }
  let ac :=
    match respStatus with
    | some st => { ac with ResponseCode := st }
    | none => ac
  if ac.Resource.isSome && ac.Action.isSome then (ac, some (ToEvent ac))
  else (ac, none)

/-- Whole-request model of the middleware returned by `EchoMw.Root`
(echo-adapter/types.go): skip entirely when the skipper fires, otherwise
build the fresh accumulator from transport data, run the inner handler
chain (modelled as a transformer of the shared accumulator), and finish
with `rootFinish`. -/
def RootHandle (skip : Bool) (traceID : Option GoValue)
    (ip ua uri method : String) (startTime : Int)
    (next : AuditableContext → AuditableContext)
    (respStatus : Option Int) (endTime : Int) : Option AuditEvent :=
  if skip then none
  else
    let auditCtx : AuditableContext :=
      { TraceID := traceID, Metadata := some [], IPAddress := ip,
        UserAgent := ua, RequestURI := uri, Method := method,
        StartTime := startTime }
    let auditCtx := next auditCtx
    (rootFinish auditCtx respStatus endTime).2

/-- Per-route middleware produced by `EchoMw.For` (echo-adapter/types.go):
set `Resource` and `Action` on the attached accumulator, and set `UserID`
when a `UserFromContext` extractor is configured and returns non-nil.
`userExtract` is `none` when no extractor is configured, `some u` for a
configured extractor returning `u`. -/
def ForHandle (resource : EntityType) (action : ActionType)
    (userExtract : Option (Option GoValue)) (ac : AuditableContext) : AuditableContext :=
  let ac := { ac with Resource := some resource, Action := some action }
  match userExtract with
  | some (some u) => { ac with UserID := some u }
  | _ => ac

/-- Embedding of `echoadapter.EchoMw` (echo-adapter/types.go): the
middleware value is determined by the transport config it closes over,
kept abstract as a type parameter. -/
structure EchoMw (Config : Type) where
  cfg : Config

/-- `echoadapter.NewEchoMiddleware` (echo-adapter/types.go). -/
def NewEchoMiddleware {Config : Type} (cfg : Config) : EchoMw Config :=
  { cfg := cfg }

/-- State of the package-level singleton in echo-adapter/config.go: `fired`
models whether `once.Do` has already run its function, `mw` the stored
middleware (`none` = Go nil interface). -/
structure SingletonState (Config : Type) where
  fired : Bool
  mw : Option (EchoMw Config)

/-- The singleton state at process start: `once` unfired, `mw` nil. -/
def singletonInit (Config : Type) : SingletonState Config :=
  { fired := false, mw := none }

/-- `echoadapter.Configure` (echo-adapter/config.go): `once.Do` runs the
initializer only the first time, so a later call leaves the state
untouched. -/
def Configure {Config : Type} (s : SingletonState Config) (cfg : Config) : SingletonState Config :=
  if s.fired then s else { fired := true, mw := some (NewEchoMiddleware cfg) }

/-- `echoadapter.Root` (echo-adapter/config.go): panic when `mw` is nil
(modelled as `none`), otherwise hand out the middleware whose `Root`
method is returned. -/
def RootGlobal {Config : Type} (s : SingletonState Config) : Option (EchoMw Config) :=
  match s.mw with
  | none => none
  | some m => some m

/-- `echoadapter.For` (echo-adapter/config.go): panic when `mw` is nil
(modelled as `none`), otherwise hand out the middleware whose `For`
factory is returned. -/
def ForGlobal {Config : Type} (s : SingletonState Config) : Option (EchoMw Config) :=
  match s.mw with
  | none => none
  | some m => some m

/-- One call of the core mutation API, as listed by the spec's frame claim:
the six setters of core/context.go and the decorators built from them. -/
inductive CoreOp where
  | opSetUserID (v : Option GoValue)
  | opSetResourceID (v : Option GoValue)
  | opSetOldData (v : Option GoValue)
  | opSetNewData (v : Option GoValue)
  | opSetMetadata (k : String) (v : GoValue)
  | opSetBulkMetadata (m : Option (List (String × GoValue)))
  | opCreate (rid nd : Option GoValue)
  | opUpdate (rid od nd : Option GoValue)
  | opDelete (rid od : Option GoValue)
  | opGet (rid : Option GoValue)
  | opList (m : Option (List (String × GoValue)))
  | opPage (v : GoValue)
  | opAction (rid : Option GoValue) (m : Option (List (String × GoValue)))

/-- Run one mutation call against an accumulator; decorator calls go
through `SetContext` on the attached accumulator exactly as in the
source. -/
def applyCoreOp (ac : AuditableContext) : CoreOp → AuditableContext
  | .opSetUserID v => SetUserID ac v
  | .opSetResourceID v => SetResourceID ac v
  | .opSetOldData v => SetOldData ac v
  | .opSetNewData v => SetNewData ac v
  | .opSetMetadata k v => SetMetadata ac k v
  | .opSetBulkMetadata m => SetBulkMetadata ac m
  | .opCreate rid nd => (AuditableCreate (some ac) rid nd).getD ac
  | .opUpdate rid od nd => (AuditableUpdate (some ac) rid od nd).getD ac
  | .opDelete rid od => (AuditableDelete (some ac) rid od).getD ac
  | .opGet rid => (AuditableGet (some ac) rid).getD ac
  | .opList m => (AuditableList (some ac) m).getD ac
  | .opPage v => (AuditablePage (some ac) v).getD ac
  | .opAction rid m => (AuditableAction (some ac) rid m).getD ac

/-- Run a whole sequence of mutation calls. -/
def applyCoreOps (ac : AuditableContext) (ops : List CoreOp) : AuditableContext :=
  ops.foldl applyCoreOp ac

/-- One atomic machine action inside `SetBulkMetadata`, for the
interleaving model of claim C9: take the mutex, lazily initialize the map
(`if ac.Metadata == nil`), assign one ranged entry, release the mutex. -/
inductive LockAction where
  | acquire
  | initMap
  | writeKey (k : String) (v : GoValue)
  | release

/-- The action sequence one goroutine executes for `SetBulkMetadata m`. -/
def bulkProgram (m : List (String × GoValue)) : List LockAction :=
  .acquire :: .initMap :: (m.map fun kv => .writeKey kv.1 kv.2) ++ [.release]

/-- Shared state of two goroutines racing `SetBulkMetadata` on one
accumulator: who holds the mutex, each goroutine's remaining actions, and
the accumulator's `Metadata` field. -/
structure MergeState where
  lockOwner : Option Bool
  progA : List LockAction
  progB : List LockAction
  md : Option (List (String × GoValue))

/-- Effect of one action on the `Metadata` field.  `writeKey` on a nil
map defaults to the empty map; it is unreachable because `initMap` runs
first inside the same critical section. -/
def runAction : LockAction → Option (List (String × GoValue)) → Option (List (String × GoValue))
  | .initMap, md =>
    match md with
    | none => some []
    | some m => some m
  | .writeKey k v, md => some (mapSet (md.getD []) k v)
  | _, md => md

/-- Let goroutine `t` (false = A, true = B) try to execute its next
action: `acquire` blocks while the other goroutine holds the mutex, every
other action runs. -/
def stepThread (s : MergeState) (t : Bool) : MergeState :=
  if t then
    match s.progB with
    | [] => s
    | .acquire :: rest =>
      if s.lockOwner.isNone then { s with lockOwner := some true, progB := rest } else s
    | .release :: rest => { s with lockOwner := none, progB := rest }
    | a :: rest => { s with md := runAction a s.md, progB := rest }
  else
    match s.progA with
    | [] => s
    | .acquire :: rest =>
      if s.lockOwner.isNone then { s with lockOwner := some false, progA := rest } else s
    | .release :: rest => { s with lockOwner := none, progA := rest }
    | a :: rest => { s with md := runAction a s.md, progA := rest }

/-- Run a schedule: at each tick the scheduled goroutine attempts one
action. -/
def runSched (s : MergeState) : List Bool → MergeState
  | [] => s
  | t :: ts => runSched (stepThread s t) ts

/-- The C9 scenario: goroutine A merges {"a": 1}, goroutine B merges
{"b": 2}, starting from `Metadata = m0` with the mutex free. -/
def mergeInit (m0 : Option (List (String × GoValue))) : MergeState :=
  { lockOwner := none
    progA := bulkProgram [("a", .jnum 1)]
    progB := bulkProgram [("b", .jnum 2)]
    md := m0 }

/-- Invariant of the C9 machine: each goroutine's remaining program is a
suffix (position `i`, `j`) of its merge program, the mutex is held by a
goroutine exactly while it is inside its critical section, and each key
of `Metadata` reads as its merged value exactly once the corresponding
`writeKey` has executed. -/
def mergeInv (m0 : Option (List (String × GoValue))) (s : MergeState) : Prop :=
  ∃ i j : Nat, i ≤ 4 ∧ j ≤ 4 ∧
    s.progA = (bulkProgram [("a", .jnum 1)]).drop i ∧
    s.progB = (bulkProgram [("b", .jnum 2)]).drop j ∧
    (s.lockOwner = some false ↔ (1 ≤ i ∧ i ≤ 3)) ∧
    (s.lockOwner = some true ↔ (1 ≤ j ∧ j ≤ 3)) ∧
    ((s.md.getD []).lookup "a" =
      if 3 ≤ i then some (.jnum 1) else ((m0.getD []).lookup "a")) ∧
    ((s.md.getD []).lookup "b" =
      if 3 ≤ j then some (.jnum 2) else ((m0.getD []).lookup "b"))

/-- Closed form of `ToEvent`: every field is a direct copy except `Success`
(derived from the response code) and the two snapshots (source bound
through `jsonMarshal`). -/
theorem ToEvent_eq (ac : AuditableContext) :
    ToEvent ac =
      { TraceID := ac.TraceID
        UserID := ac.UserID
        Action := ac.Action
        Resource := ac.Resource
        ResourceID := ac.ResourceID
        Metadata := ac.Metadata
        IPAddress := ac.IPAddress
        UserAgent := ac.UserAgent
        RequestURI := ac.RequestURI
        Method := ac.Method
        ResponseCode := ac.ResponseCode
        StartTime := ac.StartTime
        EndTime := ac.EndTime
        Success := decide (200 ≤ ac.ResponseCode) && decide (ac.ResponseCode < 400)
        OldData := ac.OldData.bind jsonMarshal
        NewData := ac.NewData.bind jsonMarshal } := by
  unfold ToEvent
  rcases ho : ac.OldData with _ | d <;> rcases hn : ac.NewData with _ | e <;>
    simp only [ho, hn]
  · simp [Option.bind]
  · rcases hm : jsonMarshal e with _ | ee <;> simp [Option.bind, hm]
  · rcases hm : jsonMarshal d with _ | dd <;> simp [Option.bind, hm]
  · rcases hm : jsonMarshal d with _ | dd <;> rcases hm' : jsonMarshal e with _ | ee <;>
      simp [Option.bind, hm, hm']

/-- Membership of the `success` key: present exactly when the derived
`Success` boolean is true, because the field is tagged `omitempty`. -/
theorem mem_success_serializedKeys (e : AuditEvent) :
    "success" ∈ serializedKeys e ↔ e.Success = true := by
  simp [serializedKeys]
  rcases e.Metadata with _ | m
  · simp
  · split <;> simp

/-- C1, counterexample: on the zero accumulator the derived success value
is false, and the serialized event omits the `success` key — refuting the
claim that `success` is always present. -/
theorem success_key_omitted_when_false :
    (ToEvent emptyCtx).Success = false ∧
      "success" ∉ serializedKeys (ToEvent emptyCtx) := by decide

/-- C1, amended: the serialization of every converted event contains
`traceId`, `startTime` and `endTime`; the `success` key, tagged
`omitempty` like the other optional fields, is present exactly when the
derived success value is true (and hence omitted whenever it is false). -/
theorem serialized_required_keys_and_success :
    ∀ ac : AuditableContext,
      "traceId" ∈ serializedKeys (ToEvent ac) ∧
      "startTime" ∈ serializedKeys (ToEvent ac) ∧
      "endTime" ∈ serializedKeys (ToEvent ac) ∧
      ("success" ∈ serializedKeys (ToEvent ac) ↔ (ToEvent ac).Success = true) := by
  intro ac
  refine ⟨?_, ?_, ?_, mem_success_serializedKeys _⟩ <;> simp [serializedKeys]

/-- C2: the derived success flag of the converted event is true exactly
when the accumulator's response code lies in [200, 400); in particular it
is false at 0, 199, 400, 500 and on an accumulator whose response code was
never set. -/
theorem toEvent_success_iff_code_in_2xx_3xx :
    (∀ ac : AuditableContext,
        (ToEvent ac).Success = true ↔ 200 ≤ ac.ResponseCode ∧ ac.ResponseCode < 400) ∧
    (ToEvent { emptyCtx with ResponseCode := 0 }).Success = false ∧
    (ToEvent { emptyCtx with ResponseCode := 199 }).Success = false ∧
    (ToEvent { emptyCtx with ResponseCode := 400 }).Success = false ∧
    (ToEvent { emptyCtx with ResponseCode := 500 }).Success = false ∧
    (ToEvent emptyCtx).Success = false := by
  refine ⟨fun ac => ?_, by decide, by decide, by decide, by decide, by decide⟩
  rw [ToEvent_eq]
  simp

/-- C3: conversion is total and best-effort — a nil snapshot yields an
absent event field, a snapshot whose marshalling fails also yields an
absent event field, and every other event field is produced from the
accumulator regardless. -/
theorem toEvent_never_fails_best_effort :
    ∀ ac : AuditableContext,
      (ac.OldData = none → (ToEvent ac).OldData = none) ∧
      (∀ d, ac.OldData = some d → jsonMarshal d = none → (ToEvent ac).OldData = none) ∧
      (ac.NewData = none → (ToEvent ac).NewData = none) ∧
      (∀ d, ac.NewData = some d → jsonMarshal d = none → (ToEvent ac).NewData = none) ∧
      ((ToEvent ac).TraceID = ac.TraceID ∧
       (ToEvent ac).UserID = ac.UserID ∧
       (ToEvent ac).Action = ac.Action ∧
       (ToEvent ac).Resource = ac.Resource ∧
       (ToEvent ac).ResourceID = ac.ResourceID ∧
       (ToEvent ac).Metadata = ac.Metadata ∧
       (ToEvent ac).IPAddress = ac.IPAddress ∧
       (ToEvent ac).UserAgent = ac.UserAgent ∧
       (ToEvent ac).RequestURI = ac.RequestURI ∧
       (ToEvent ac).Method = ac.Method ∧
       (ToEvent ac).ResponseCode = ac.ResponseCode ∧
       (ToEvent ac).StartTime = ac.StartTime ∧
       (ToEvent ac).EndTime = ac.EndTime) := by
  intro ac
  rw [ToEvent_eq]
  refine ⟨fun h => ?_, fun d hd hm => ?_, fun h => ?_, fun d hd hm => ?_, by simp⟩
  · simp [h, Option.bind]
  · simp [hd, hm, Option.bind]
  · simp [h, Option.bind]
  · simp [hd, hm, Option.bind]

/-- C3, witness: a concrete accumulator whose old snapshot is an
unserializable value and whose new snapshot contains one nested — both
event snapshot fields are absent while the trace id is still produced. -/
theorem toEvent_never_fails_best_effort_witness :
    (ToEvent { emptyCtx with
        TraceID := some (.jstr "t"),
        OldData := some .unser,
        NewData := some (.jobj [("x", .unser)]) }).OldData = none ∧
    (ToEvent { emptyCtx with
        TraceID := some (.jstr "t"),
        OldData := some .unser,
        NewData := some (.jobj [("x", .unser)]) }).NewData = none ∧
    (ToEvent { emptyCtx with
        TraceID := some (.jstr "t"),
        OldData := some .unser,
        NewData := some (.jobj [("x", .unser)]) }).TraceID = some (.jstr "t") := by
  refine ⟨(toEvent_never_fails_best_effort _).2.1 .unser rfl rfl,
          (toEvent_never_fails_best_effort _).2.2.2.1 (.jobj [("x", .unser)]) rfl rfl,
          (toEvent_never_fails_best_effort _).2.2.2.2.1⟩

/-- C4: when user id, action, resource kind, metadata, old data and new
data were never set on the accumulator, the serialized event omits the
keys userId, action, resource, metadata, oldData and newData entirely. -/
theorem fresh_optional_keys_absent :
    ∀ ac : AuditableContext,
      ac.UserID = none → ac.Action = none → ac.Resource = none →
      ac.Metadata = none → ac.OldData = none → ac.NewData = none →
      "userId" ∉ serializedKeys (ToEvent ac) ∧
      "action" ∉ serializedKeys (ToEvent ac) ∧
      "resource" ∉ serializedKeys (ToEvent ac) ∧
      "metadata" ∉ serializedKeys (ToEvent ac) ∧
      "oldData" ∉ serializedKeys (ToEvent ac) ∧
      "newData" ∉ serializedKeys (ToEvent ac) := by
  intro ac h1 h2 h3 h4 h5 h6
  rw [ToEvent_eq]
  simp [serializedKeys, h1, h2, h3, h4, h5, h6, Option.bind]

/-- C4, witness: the zero accumulator evaluates the omitted-keys contract
at a concrete input. -/
theorem fresh_optional_keys_absent_witness :
    "userId" ∉ serializedKeys (ToEvent emptyCtx) ∧
    "action" ∉ serializedKeys (ToEvent emptyCtx) ∧
    "resource" ∉ serializedKeys (ToEvent emptyCtx) ∧
    "metadata" ∉ serializedKeys (ToEvent emptyCtx) ∧
    "oldData" ∉ serializedKeys (ToEvent emptyCtx) ∧
    "newData" ∉ serializedKeys (ToEvent emptyCtx) :=
  fresh_optional_keys_absent emptyCtx rfl rfl rfl rfl rfl rfl

/-- C5: at the end of a non-skipped request the root middleware stamps
`EndTime`, then stamps `ResponseCode` from the materialized response, and
hands exactly the converted snapshot of the stamped accumulator to the
auditor when both `Resource` and `Action` are set — and nothing at all
otherwise. -/
theorem root_stamps_then_delivers_iff_resource_and_action :
    (∀ (ac : AuditableContext) (st t : Int),
      (rootFinish ac (some st) t).1 = { ac with EndTime := t, ResponseCode := st } ∧
      (rootFinish ac (some st) t).2 =
        (if ac.Resource.isSome && ac.Action.isSome
         then some (ToEvent (rootFinish ac (some st) t).1)
         else none)) ∧
    (∀ (traceID : Option GoValue) (ip ua uri method : String) (startT : Int)
        (next : AuditableContext → AuditableContext) (st t : Int),
      RootHandle false traceID ip ua uri method startT next (some st) t =
        (rootFinish
          (next { TraceID := traceID, Metadata := some [], IPAddress := ip,
                  UserAgent := ua, RequestURI := uri, Method := method,
                  StartTime := startT })
          (some st) t).2) := by
  constructor
  · intro ac st t
    unfold rootFinish
    by_cases h : ac.Resource.isSome && ac.Action.isSome <;> simp [h]
  · intro traceID ip ua uri method startT next st t
    unfold RootHandle
    simp

/-- C6: `AuditablePage` round-trips the page value (marshal, unmarshal
into a string-keyed map) and bulk-merges the result into the attached
accumulator's metadata; when either step fails the request context is
returned exactly as it was — no metadata change and no error. -/
theorem auditablePage_merge_or_unchanged :
    ∀ (ctx : Option AuditableContext) (v : GoValue),
      (jsonMarshal v = none → AuditablePage ctx v = ctx) ∧
      (∀ b, jsonMarshal v = some b → unmarshalMap b = none → AuditablePage ctx v = ctx) ∧
      (∀ ac fs, jsonMarshal v = some (.jobj fs) →
          AuditablePage (some ac) v = some (SetBulkMetadata ac (some fs))) := by
  intro ctx v
  refine ⟨fun h => ?_, fun b hb hu => ?_, fun ac fs hb => ?_⟩
  · simp [AuditablePage, h]
  · simp [AuditablePage, hb, hu]
  · simp [AuditablePage, hb, unmarshalMap, SetContext, WithBulkMetadata]

/-- C6, witness: an unserializable page value and a page value whose
document is not an object both leave the accumulator untouched, while an
object-valued page merges its fields. -/
theorem auditablePage_merge_or_unchanged_witness :
    AuditablePage (some emptyCtx) .unser = some emptyCtx ∧
    AuditablePage (some emptyCtx) (.jnum 3) = some emptyCtx ∧
    AuditablePage (some emptyCtx) (.jobj [("p", .jnum 1)]) =
      some (SetBulkMetadata emptyCtx (some [("p", .jnum 1)])) :=
  ⟨(auditablePage_merge_or_unchanged (some emptyCtx) .unser).1 rfl,
   (auditablePage_merge_or_unchanged (some emptyCtx) (.jnum 3)).2.1 (.jnum 3) rfl rfl,
   (auditablePage_merge_or_unchanged (some emptyCtx) (.jobj [("p", .jnum 1)])).2.2
     emptyCtx [("p", .jnum 1)] rfl⟩

/-- C7: with no accumulator attached to the request context, every
decorator call and every `SetContext` call returns the context unchanged —
no state change, no error, no panic. -/
theorem decorators_noop_without_accumulator :
    ∀ (rid od nd : Option GoValue) (md : Option (List (String × GoValue)))
      (v : GoValue) (opts : List ContextOption),
      SetContext none opts = none ∧
      AuditableCreate none rid nd = none ∧
      AuditableUpdate none rid od nd = none ∧
      AuditableDelete none rid od = none ∧
      AuditableGet none rid = none ∧
      AuditableList none md = none ∧
      AuditablePage none v = none ∧
      AuditableAction none rid md = none := by
  intro rid od nd md v opts
  refine ⟨rfl, rfl, rfl, rfl, rfl, ?_, ?_, ?_⟩
  · cases md <;> rfl
  · rcases hb : jsonMarshal v with _ | b
    · simp [AuditablePage, hb]
    · rcases hu : unmarshalMap b with _ | m <;> simp [AuditablePage, hb, hu, SetContext]
  · cases md <;> rfl

/-- Helper: no single mutation call of the core API changes `TraceID`. -/
theorem applyCoreOp_traceID (ac : AuditableContext) (op : CoreOp) :
    (applyCoreOp ac op).TraceID = ac.TraceID := by
  cases op <;>
    simp [applyCoreOp, SetUserID, SetResourceID, SetOldData, SetNewData,
      SetMetadata, SetBulkMetadata, AuditableCreate, AuditableUpdate,
      AuditableDelete, AuditableGet, AuditableList, AuditableAction,
      SetContext, WithUserID, WithResourceID, WithOldData, WithNewData,
      WithMetadata, WithBulkMetadata]
  case opPage v =>
    rcases hb : jsonMarshal v with _ | b
    · simp [AuditablePage, hb]
    · rcases hu : unmarshalMap b with _ | m <;>
        simp [AuditablePage, hb, hu, SetContext, WithBulkMetadata, SetBulkMetadata]
  case opList m =>
    cases m <;> simp [AuditableList, SetContext, WithBulkMetadata, SetBulkMetadata]
  case opAction rid m =>
    cases m <;>
      simp [AuditableAction, SetContext, WithResourceID, WithBulkMetadata,
        SetResourceID, SetBulkMetadata]

/-- Helper: no sequence of mutation calls changes `TraceID`. -/
theorem applyCoreOps_traceID (ops : List CoreOp) :
    ∀ ac : AuditableContext, (applyCoreOps ac ops).TraceID = ac.TraceID := by
  induction ops with
  | nil => intro ac; rfl
  | cons op rest ih =>
    intro ac
    have h1 : applyCoreOps ac (op :: rest) = applyCoreOps (applyCoreOp ac op) rest := rfl
    rw [h1, ih (applyCoreOp ac op), applyCoreOp_traceID]

/-- C8: the mutation API has no operation that changes `TraceID` — after
any sequence of setter, decorator and conversion calls the trace id equals
its value at construction — and each setter rewrites exactly its own
target field, leaving every other field of the accumulator intact. -/
theorem traceID_immutable_and_setters_frame :
    (∀ (ac : AuditableContext) (ops : List CoreOp),
        (applyCoreOps ac ops).TraceID = ac.TraceID ∧
        (ToEvent (applyCoreOps ac ops)).TraceID = ac.TraceID) ∧
    (∀ ac v, SetUserID ac v = { ac with UserID := v }) ∧
    (∀ ac v, SetResourceID ac v = { ac with ResourceID := v }) ∧
    (∀ ac v, SetOldData ac v = { ac with OldData := v }) ∧
    (∀ ac v, SetNewData ac v = { ac with NewData := v }) ∧
    (∀ ac k v, SetMetadata ac k v =
        { ac with Metadata := some (mapSet (ac.Metadata.getD []) k v) }) ∧
    (∀ ac m, SetBulkMetadata ac m =
        { ac with Metadata := some (mapMerge (ac.Metadata.getD []) (m.getD [])) }) := by
  refine ⟨fun ac ops => ⟨applyCoreOps_traceID ops ac, ?_⟩,
    fun ac v => rfl, fun ac v => rfl, fun ac v => rfl, fun ac v => rfl,
    fun ac k v => rfl, fun ac m => rfl⟩
  rw [ToEvent_eq]
  exact applyCoreOps_traceID ops ac

/-- Helper: `Configure` is the identity once the guard has fired. -/
theorem configure_fired (Config : Type) (s : SingletonState Config) (h : s.fired = true)
    (cfg : Config) : Configure s cfg = s := by
  simp [Configure, h]

/-- Helper: any further configuration sequence is absorbed once the guard
has fired. -/
theorem foldl_configure_fired (Config : Type) (later : List Config) :
    ∀ s : SingletonState Config, s.fired = true → later.foldl Configure s = s := by
  induction later with
  | nil => intro s h; rfl
  | cons cfg rest ih =>
    intro s h
    have h1 : (cfg :: rest).foldl Configure s = rest.foldl Configure (Configure s cfg) := rfl
    rw [h1, configure_fired Config s h cfg, ih s h]

/-- C10: the Echo-adapter singleton is first-write-wins — once
`Configure cfg1` has run, every later `Configure` leaves the state (and
hence the middleware returned by `Root` and `For`) exactly as `cfg1` built
it; before any `Configure`, `Root` and `For` hit the nil-middleware panic
(modelled as `none`). -/
theorem configure_first_write_wins :
    ∀ (Config : Type) (cfg1 : Config) (later : List Config),
      later.foldl Configure (Configure (singletonInit Config) cfg1) =
        Configure (singletonInit Config) cfg1 ∧
      RootGlobal (later.foldl Configure (Configure (singletonInit Config) cfg1)) =
        some (NewEchoMiddleware cfg1) ∧
      ForGlobal (later.foldl Configure (Configure (singletonInit Config) cfg1)) =
        some (NewEchoMiddleware cfg1) ∧
      RootGlobal (singletonInit Config) = none ∧
      ForGlobal (singletonInit Config) = none := by
  intro Config cfg1 later
  have hfired : (Configure (singletonInit Config) cfg1).fired = true := by
    simp [Configure, singletonInit]
  have habs := foldl_configure_fired Config later (Configure (singletonInit Config) cfg1) hfired
  refine ⟨habs, ?_, ?_, rfl, rfl⟩ <;>
    rw [habs] <;> simp [Configure, singletonInit, RootGlobal, ForGlobal]

/-- Helper: a Go map assignment makes its own key read the assigned
value. -/
theorem lookup_mapSet_self (m : List (String × GoValue)) (k : String) (v : GoValue) :
    (mapSet m k v).lookup k = some v := by
  induction m with
  | nil => simp [mapSet, List.lookup]
  | cons kv rest ih =>
    obtain ⟨k', v'⟩ := kv
    by_cases h : k' = k
    · subst h; simp [mapSet, List.lookup]
    · have hb : (k == k') = false := beq_false_of_ne (Ne.symm h)
      simp [mapSet, h, List.lookup, hb, ih]

/-- Helper: a Go map assignment leaves every other key's reading
unchanged. -/
theorem lookup_mapSet_ne (m : List (String × GoValue)) (k k' : String) (v : GoValue)
    (h : k' ≠ k) : (mapSet m k v).lookup k' = m.lookup k' := by
  have hb : (k' == k) = false := beq_false_of_ne h
  induction m with
  | nil => simp [mapSet, List.lookup, hb]
  | cons kv rest ih =>
    obtain ⟨k'', v''⟩ := kv
    by_cases h2 : k'' = k
    · subst h2; simp [mapSet, List.lookup, hb]
    · cases hk : k' == k'' <;> simp [mapSet, h2, List.lookup, hk, ih]

/-- Helper: the C9 machine's invariant holds initially. -/
theorem mergeInv_init (m0 : Option (List (String × GoValue))) :
    mergeInv m0 (mergeInit m0) := by
  refine ⟨0, 0, by omega, by omega, rfl, rfl, ?_, ?_, ?_, ?_⟩ <;> simp [mergeInit]

/-- Helper: the C9 machine's invariant is preserved by every step of
either goroutine. -/
theorem mergeInv_step (m0 : Option (List (String × GoValue))) (s : MergeState) (t : Bool)
    (h : mergeInv m0 s) : mergeInv m0 (stepThread s t) := by
  obtain ⟨i, j, hi, hj, hpa, hpb, hla, hlb, hka, hkb⟩ := h
  cases t
  case false =>
    interval_cases i
    · -- next action of A: acquire
      rcases hlo : s.lockOwner with _ | o
      · have hstep : stepThread s false =
            { s with lockOwner := some false,
                     progA := [.initMap, .writeKey "a" (.jnum 1), .release] } := by
          simp [stepThread, hpa, bulkProgram, hlo]
        rw [hstep]
        rw [hlo] at hlb
        refine ⟨1, j, by omega, hj, by simp [bulkProgram], by simpa using hpb,
          by simp, ?_, by simpa using hka, by simpa using hkb⟩
        simp only [MergeState.lockOwner]
        constructor
        · intro hc; exact absurd hc (by simp)
        · intro hc; exact absurd (hlb.mpr hc) (by simp)
      · have hstep : stepThread s false = s := by
          simp [stepThread, hpa, bulkProgram, hlo]
        rw [hstep]
        exact ⟨0, j, by omega, hj, hpa, hpb, hla, hlb, hka, hkb⟩
    · -- next action of A: initMap
      have hstep : stepThread s false =
          { s with md := runAction .initMap s.md,
                   progA := [.writeKey "a" (.jnum 1), .release] } := by
        simp [stepThread, hpa, bulkProgram]
      rw [hstep]
      have hmd : (runAction .initMap s.md).getD [] = s.md.getD [] := by
        cases s.md <;> simp [runAction]
      refine ⟨2, j, by omega, hj, by simp [bulkProgram], by simpa using hpb,
        ?_, by simpa using hlb, by simpa [hmd] using hka, by simpa [hmd] using hkb⟩
      simp only [MergeState.lockOwner]
      have : s.lockOwner = some false := hla.mpr (by omega)
      simp [this]
    · -- next action of A: write "a"
      have hstep : stepThread s false =
          { s with md := some (mapSet (s.md.getD []) "a" (.jnum 1)),
                   progA := [.release] } := by
        simp [stepThread, hpa, bulkProgram, runAction]
      rw [hstep]
      refine ⟨3, j, by omega, hj, by simp [bulkProgram], by simpa using hpb,
        ?_, by simpa using hlb, ?_, ?_⟩
      · simp only [MergeState.lockOwner]
        have : s.lockOwner = some false := hla.mpr (by omega)
        simp [this]
      · simp only [MergeState.md]
        simp [lookup_mapSet_self]
      · simp only [MergeState.md]
        have hb : ("b" : String) ≠ "a" := by decide
        simp only [Option.getD_some, lookup_mapSet_ne _ _ _ _ hb]
        simpa using hkb
    · -- next action of A: release
      have hstep : stepThread s false =
          { s with lockOwner := none, progA := [] } := by
        simp [stepThread, hpa, bulkProgram]
      rw [hstep]
      have hsf : s.lockOwner = some false := hla.mpr (by omega)
      rw [hsf] at hlb
      refine ⟨4, j, by omega, hj, by simp [bulkProgram], by simpa using hpb,
        by simp, ?_, by simpa using hka, by simpa using hkb⟩
      simp only [MergeState.lockOwner]
      constructor
      · intro hc; exact absurd hc (by simp)
      · intro hc; exact absurd (hlb.mpr hc) (by simp)
    · -- A finished
      have hstep : stepThread s false = s := by
        simp [stepThread, hpa, bulkProgram]
      rw [hstep]
      exact ⟨4, j, by omega, hj, hpa, hpb, hla, hlb, hka, hkb⟩
  case true =>
    interval_cases j
    · rcases hlo : s.lockOwner with _ | o
      · have hstep : stepThread s true =
            { s with lockOwner := some true,
                     progB := [.initMap, .writeKey "b" (.jnum 2), .release] } := by
          simp [stepThread, hpb, bulkProgram, hlo]
        rw [hstep]
        rw [hlo] at hla
        refine ⟨i, 1, hi, by omega, by simpa using hpa, by simp [bulkProgram],
          ?_, by simp, by simpa using hka, by simpa using hkb⟩
        simp only [MergeState.lockOwner]
        constructor
        · intro hc; exact absurd hc (by simp)
        · intro hc; exact absurd (hla.mpr hc) (by simp)
      · have hstep : stepThread s true = s := by
          simp [stepThread, hpb, bulkProgram, hlo]
        rw [hstep]
        exact ⟨i, 0, hi, by omega, hpa, hpb, hla, hlb, hka, hkb⟩
    · have hstep : stepThread s true =
          { s with md := runAction .initMap s.md,
                   progB := [.writeKey "b" (.jnum 2), .release] } := by
        simp [stepThread, hpb, bulkProgram]
      rw [hstep]
      have hmd : (runAction .initMap s.md).getD [] = s.md.getD [] := by
        cases s.md <;> simp [runAction]
      refine ⟨i, 2, hi, by omega, by simpa using hpa, by simp [bulkProgram],
        by simpa using hla, ?_, by simpa [hmd] using hka, by simpa [hmd] using hkb⟩
      simp only [MergeState.lockOwner]
      have : s.lockOwner = some true := hlb.mpr (by omega)
      simp [this]
    · have hstep : stepThread s true =
          { s with md := some (mapSet (s.md.getD []) "b" (.jnum 2)),
                   progB := [.release] } := by
        simp [stepThread, hpb, bulkProgram, runAction]
      rw [hstep]
      refine ⟨i, 3, hi, by omega, by simpa using hpa, by simp [bulkProgram],
        by simpa using hla, ?_, ?_, ?_⟩
      · simp only [MergeState.lockOwner]
        have : s.lockOwner = some true := hlb.mpr (by omega)
        simp [this]
      · simp only [MergeState.md]
        have hb : ("a" : String) ≠ "b" := by decide
        simp only [Option.getD_some, lookup_mapSet_ne _ _ _ _ hb]
        simpa using hka
      · simp only [MergeState.md]
        simp [lookup_mapSet_self]
    · have hstep : stepThread s true =
          { s with lockOwner := none, progB := [] } := by
        simp [stepThread, hpb, bulkProgram]
      rw [hstep]
      have hsf : s.lockOwner = some true := hlb.mpr (by omega)
      rw [hsf] at hla
      refine ⟨i, 4, hi, by omega, by simpa using hpa, by simp [bulkProgram],
        ?_, by simp, by simpa using hka, by simpa using hkb⟩
      simp only [MergeState.lockOwner]
      constructor
      · intro hc; exact absurd hc (by simp)
      · intro hc; exact absurd (hla.mpr hc) (by simp)
    · have hstep : stepThread s true = s := by
        simp [stepThread, hpb, bulkProgram]
      rw [hstep]
      exact ⟨i, 4, hi, by omega, hpa, hpb, hla, hlb, hka, hkb⟩

/-- Helper: the C9 machine's invariant holds along every schedule. -/
theorem mergeInv_run (m0 : Option (List (String × GoValue))) (sched : List Bool) :
    ∀ s : MergeState, mergeInv m0 s → mergeInv m0 (runSched s sched) := by
  induction sched with
  | nil => exact fun s h => h
  | cons t ts ih => exact fun s h => ih (stepThread s t) (mergeInv_step m0 s t h)

/-- C9: for every initial metadata map and every interleaving of the two
goroutines running `SetBulkMetadata {"a": 1}` and `SetBulkMetadata
{"b": 2}` under the accumulator's mutex, once both calls have finished the
metadata contains both keys with their merged values; and at every point
where the mutex is free — the only points a reader taking the read lock
can observe — each merge is either fully applied or not yet begun, never
half-applied. -/
theorem concurrent_bulk_merges_no_loss :
    ∀ (m0 : Option (List (String × GoValue))) (sched : List Bool),
      ((runSched (mergeInit m0) sched).progA = [] →
       (runSched (mergeInit m0) sched).progB = [] →
        (((runSched (mergeInit m0) sched).md.getD []).lookup "a" = some (.jnum 1) ∧
         ((runSched (mergeInit m0) sched).md.getD []).lookup "b" = some (.jnum 2))) ∧
      ((runSched (mergeInit m0) sched).lockOwner = none →
        ((((runSched (mergeInit m0) sched).md.getD []).lookup "a" = some (.jnum 1) ∨
          ((runSched (mergeInit m0) sched).progA = bulkProgram [("a", .jnum 1)] ∧
           ((runSched (mergeInit m0) sched).md.getD []).lookup "a" = ((m0.getD []).lookup "a"))) ∧
         (((runSched (mergeInit m0) sched).md.getD []).lookup "b" = some (.jnum 2) ∨
          ((runSched (mergeInit m0) sched).progB = bulkProgram [("b", .jnum 2)] ∧
           ((runSched (mergeInit m0) sched).md.getD []).lookup "b" = ((m0.getD []).lookup "b"))))) := by
  intro m0 sched
  obtain ⟨i, j, hi, hj, hpa, hpb, hla, hlb, hka, hkb⟩ :=
    mergeInv_run m0 sched (mergeInit m0) (mergeInv_init m0)
  constructor
  · intro hA hB
    have hdropA : (bulkProgram [("a", GoValue.jnum 1)]).drop i = [] := hpa.symm.trans hA
    have hdropB : (bulkProgram [("b", GoValue.jnum 2)]).drop j = [] := hpb.symm.trans hB
    have hi4 : i = 4 := by
      interval_cases i <;> first | rfl | (exfalso; simp [bulkProgram] at hdropA)
    have hj4 : j = 4 := by
      interval_cases j <;> first | rfl | (exfalso; simp [bulkProgram] at hdropB)
    rw [hi4] at hka
    rw [hj4] at hkb
    exact ⟨by simpa using hka, by simpa using hkb⟩
  · intro hfree
    rw [hfree] at hla hlb
    have hiA : ¬(1 ≤ i ∧ i ≤ 3) := fun hc => by simpa using hla.mpr hc
    have hiB : ¬(1 ≤ j ∧ j ≤ 3) := fun hc => by simpa using hlb.mpr hc
    constructor
    · rcases (show i = 0 ∨ i = 4 by omega) with h0 | h4
      · rw [h0] at hka hpa
        exact Or.inr ⟨by simpa using hpa, by simpa using hka⟩
      · rw [h4] at hka
        exact Or.inl (by simpa using hka)
    · rcases (show j = 0 ∨ j = 4 by omega) with h0 | h4
      · rw [h0] at hkb hpb
        exact Or.inr ⟨by simpa using hpb, by simpa using hkb⟩
      · rw [h4] at hkb
        exact Or.inl (by simpa using hkb)

/-- C9, witness: the two whole-call interleavings evaluated on a fresh
accumulator both end with both keys present. -/
theorem concurrent_bulk_merges_no_loss_witness :
    (((runSched (mergeInit none) [false, false, false, false, true, true, true, true]).md.getD
        []).lookup "a" = some (.jnum 1) ∧
     ((runSched (mergeInit none) [false, false, false, false, true, true, true, true]).md.getD
        []).lookup "b" = some (.jnum 2)) ∧
    (((runSched (mergeInit none) [true, true, true, true, false, false, false, false]).md.getD
        []).lookup "a" = some (.jnum 1) ∧
     ((runSched (mergeInit none) [true, true, true, true, false, false, false, false]).md.getD
        []).lookup "b" = some (.jnum 2)) :=
  ⟨(concurrent_bulk_merges_no_loss none _).1 rfl rfl,
   (concurrent_bulk_merges_no_loss none _).1 rfl rfl⟩
